import Mathlib

/-!
Shallow embedding of the WeiboSpider run-bookkeeping layer
(`keyword_rename_and_log_output.py`, `determine_groups_generate_id_list.py`,
`repost_rename_and_log_output.py`).

Dropbox file contents are passed explicitly: a raw text file is an
`Option String` (`none` models a failed/absent download, which
`read_file_f*om_dropbox` reports as Python `None`); a JSON file is a
`BlobJson α` distinguishing absent, present-but-malformed (where
`json.loads` raises), and parsed content.  Uncaught Python exceptions are
modelled by functions returning `Option`/`none`.
-/

/-- Character is in Python's `str.strip` default whitespace set
(restricted to the ASCII whitespace that can occur in these text files). -/
def isSpaceChar (c : Char) : Bool :=
  c = ' ' || c = '\t' || c = '\n' || c = '\r' || c = '\x0b' || c = '\x0c'

/-- Python `str.strip()`: drop leading and trailing whitespace. -/
def pyStrip (s : String) : String :=
  ⟨((s.data.dropWhile isSpaceChar).reverse.dropWhile isSpaceChar).reverse⟩

/-- Python `str.endswith` (the `filename.endswith('.jsonl')` test),
computed on the character lists. -/
def pyEndswith (s suffix : String) : Bool :=
  suffix.data.isSuffixOf s.data

/-- Decimal digit character for `d < 10`. -/
def digitChar (d : Nat) : Char := Char.ofNat (48 + d)

/-- Value of a decimal digit character, `none` when `c` is not `0`-`9`. -/
def charDigit (c : Char) : Option Nat :=
  if 48 ≤ c.toNat ∧ c.toNat ≤ 57 then some (c.toNat - 48) else none

/-- Parse a nonempty all-digit character list as a decimal natural. -/
def parseDigits (l : List Char) : Option Nat :=
  match l with
  | [] => none
  | _ :: _ => l.foldlM (fun acc c => (charDigit c).map (fun d => acc * 10 + d)) 0

/-- Decimal rendering of a natural number, as Python `str` produces it. -/
def printNat (n : Nat) : String :=
  if n = 0 then "0" else ⟨((Nat.digits 10 n).map digitChar).reverse⟩

/-- Python `str(i)` for an integer. -/
def pyStr (i : Int) : String :=
  if i < 0 then "-" ++ printNat i.natAbs else printNat i.natAbs

/-- Signed decimal parse on a stripped character list (helper of `pyInt`). -/
def pyIntAux : List Char → Option Int
  | [] => none
  | c :: rest =>
    if c = '-' then (parseDigits rest).map (fun n => -(Int.ofNat n))
    else if c = '+' then (parseDigits rest).map (fun n => Int.ofNat n)
    else (parseDigits (c :: rest)).map (fun n => Int.ofNat n)

/-- Python `int(s)`: strip whitespace, optional sign, decimal digits;
`none` models the `ValueError` raised on anything else. -/
def pyInt (s : String) : Option Int := pyIntAux (pyStrip s).data

/-- Embedding of `get_group_number` (keyword_rename_and_log_output.py):
read the counter file content, parse it (absent or empty content means 0),
increment, and return the new number together with the content written
back; `none` models the uncaught `ValueError` of `int` on junk content. -/
def get_group_number : Option String → Option (Int × String)
  | none => some (1, pyStr 1)
  | some s =>
    if s = "" then some (1, pyStr 1)
    else (pyInt s).map (fun k => (k + 1, pyStr (k + 1)))

/-- N successive `get_group_number` calls threading the persisted counter
file content; returns the list of outputs and the final file content. -/
def runSequencer : Nat → Option String → Option (List Int × Option String)
  | 0, c => some ([], c)
  | n + 1, c =>
    match get_group_number c with
    | none => none
    | some (g, c') =>
      (runSequencer n (some c')).map (fun p => (g :: p.1, p.2))

-- Roundtrip lemmas for the decimal print/parse pair.

theorem charDigit_digitChar {d : Nat} (h : d < 10) :
    charDigit (digitChar d) = some d := by
  interval_cases d <;> decide

theorem digitChar_not_space {d : Nat} (h : d < 10) :
    isSpaceChar (digitChar d) = false := by
  interval_cases d <;> decide

theorem digitChar_ne_minus {d : Nat} (h : d < 10) : digitChar d ≠ '-' := by
  interval_cases d <;> decide

theorem digitChar_ne_plus {d : Nat} (h : d < 10) : digitChar d ≠ '+' := by
  interval_cases d <;> decide

theorem dropWhile_eq_self_of_all {p : Char → Bool} {l : List Char}
    (h : ∀ c ∈ l, p c = false) : l.dropWhile p = l := by
  cases l with
  | nil => rfl
  | cons c cs =>
    rw [List.dropWhile_cons, h c (List.mem_cons_self c cs)]
    simp

theorem pyStrip_of_no_space {s : String}
    (h : ∀ c ∈ s.data, isSpaceChar c = false) : pyStrip s = s := by
  unfold pyStrip
  rw [dropWhile_eq_self_of_all h,
      dropWhile_eq_self_of_all (fun c hc => h c (List.mem_reverse.mp hc)),
      List.reverse_reverse]

theorem printNat_data (n : Nat) :
    (printNat n).data = ((Nat.digits 10 n).map digitChar).reverse ∨
      (n = 0 ∧ (printNat n).data = [digitChar 0]) := by
  by_cases h : n = 0
  · right
    exact ⟨h, by subst h; rfl⟩
  · left
    simp [printNat, h]

theorem printNat_digits_mem {n : Nat} {c : Char} (hc : c ∈ (printNat n).data) :
    ∃ d, d < 10 ∧ c = digitChar d := by
  rcases printNat_data n with h | ⟨_, h⟩
  · rw [h] at hc
    rw [List.mem_reverse, List.mem_map] at hc
    obtain ⟨d, hd, rfl⟩ := hc
    exact ⟨d, Nat.digits_lt_base (by norm_num) hd, rfl⟩
  · rw [h] at hc
    rcases List.mem_singleton.mp hc with rfl
    exact ⟨0, by norm_num, rfl⟩

theorem pyStrip_printNat (n : Nat) : pyStrip (printNat n) = printNat n := by
  refine pyStrip_of_no_space (fun c hc => ?_)
  obtain ⟨d, hd, rfl⟩ := printNat_digits_mem hc
  exact digitChar_not_space hd

theorem foldlM_digits (ds : List Nat) (h : ∀ d ∈ ds, d < 10) (a : Nat) :
    (ds.map digitChar).foldlM
        (fun acc c => (charDigit c).map (fun d => acc * 10 + d)) a =
      some (ds.foldl (fun acc d => acc * 10 + d) a) := by
  induction ds generalizing a with
  | nil => rfl
  | cons d rest ih =>
    have hd : d < 10 := h d (List.mem_cons_self d rest)
    simp only [List.map_cons, List.foldlM_cons,
      charDigit_digitChar hd, Option.map_some', Option.bind_eq_bind,
      Option.some_bind]
    rw [ih (fun x hx => h x (List.mem_cons_of_mem d hx)), List.foldl_cons]

theorem foldl_reverse_eq_ofDigits (ds : List Nat) :
    ds.reverse.foldl (fun acc d => acc * 10 + d) 0 = Nat.ofDigits 10 ds := by
  rw [List.foldl_reverse]
  induction ds with
  | nil => rfl
  | cons d rest ih =>
    rw [List.foldr_cons, ih, Nat.ofDigits_cons]
    ring

theorem parseDigits_map_digitChar (ds : List Nat) (h : ∀ d ∈ ds, d < 10)
    (hne : ds ≠ []) :
    parseDigits (ds.map digitChar) =
      some (ds.foldl (fun acc d => acc * 10 + d) 0) := by
  cases ds with
  | nil => exact absurd rfl hne
  | cons d rest =>
    show parseDigits (digitChar d :: rest.map digitChar) = _
    unfold parseDigits
    exact foldlM_digits (d :: rest) h 0

theorem parseDigits_printNat (n : Nat) :
    parseDigits (printNat n).data = some n := by
  by_cases h : n = 0
  · subst h; rfl
  · have hdata : (printNat n).data = ((Nat.digits 10 n).map digitChar).reverse := by
      simp [printNat, h]
    have hne : Nat.digits 10 n ≠ [] := Nat.digits_ne_nil_iff_ne_zero.mpr h
    rw [hdata, ← List.map_reverse]
    rw [parseDigits_map_digitChar (Nat.digits 10 n).reverse
      (fun d hd => Nat.digits_lt_base (by norm_num) (List.mem_reverse.mp hd))
      (by simpa using hne)]
    rw [foldl_reverse_eq_ofDigits, Nat.ofDigits_digits]

theorem pyInt_printNat (n : Nat) : pyInt (printNat n) = some (n : Int) := by
  unfold pyInt
  rw [pyStrip_printNat]
  have hpd := parseDigits_printNat n
  cases hd : (printNat n).data with
  | nil => rw [hd] at hpd; exact absurd hpd (by simp [parseDigits])
  | cons c rest =>
    have hc : ∃ d, d < 10 ∧ c = digitChar d := by
      apply printNat_digits_mem
      rw [hd]; exact List.mem_cons_self c rest
    obtain ⟨d, hdlt, rfl⟩ := hc
    rw [hd] at hpd
    simp only [pyIntAux, if_neg (digitChar_ne_minus hdlt),
      if_neg (digitChar_ne_plus hdlt), hpd, Option.map_some']
    rfl

theorem printNat_ne_empty (n : Nat) : printNat n ≠ "" := by
  by_cases h : n = 0
  · subst h; decide
  · intro heq
    have hd : (printNat n).data = ((Nat.digits 10 n).map digitChar).reverse := by
      simp [printNat, h]
    have hnil : (printNat n).data = [] := by rw [heq]
    rw [hd] at hnil
    have h1 : (Nat.digits 10 n).map digitChar = [] :=
      List.reverse_eq_nil_iff.mp hnil
    have h2 : Nat.digits 10 n = [] := List.map_eq_nil_iff.mp h1
    exact Nat.digits_ne_nil_iff_ne_zero.mpr h h2

theorem pyStr_natCast (k : Nat) : pyStr (k : Int) = printNat k := by
  unfold pyStr
  rw [if_neg (by omega), Int.natAbs_ofNat]

theorem get_group_number_printNat (k : Nat) :
    get_group_number (some (printNat k)) = some ((k : Int) + 1, pyStr ((k : Int) + 1)) := by
  simp only [get_group_number, if_neg (printNat_ne_empty k), pyInt_printNat k,
    Option.map_some']

theorem map_range_succ_cast (c n : Nat) :
    (List.range (n + 1)).map (fun i => ((c + i : Nat) : Int)) =
      ((c : Nat) : Int) ::
        (List.range n).map (fun i => ((c + 1 + i : Nat) : Int)) := by
  rw [List.range_succ_eq_map, List.map_cons, List.map_map]
  simp only [List.cons.injEq]
  constructor
  · norm_num
  · apply List.map_congr_left
    intro i _
    simp only [Function.comp_apply]
    push_cast
    ring

/-- C1: the sequencer reads counter `k`, returns `k+1` and persists `k+1`;
iterated `N` times from persisted value `k` (or from an absent file,
treated as `0`) it outputs `k+1, k+2, ..., k+N` and leaves `k+N`
persisted. -/
theorem groupSequencer_monotone :
    (get_group_number none = some (1, pyStr 1)) ∧
    (∀ k : Nat, get_group_number (some (printNat k)) =
        some (((k + 1 : Nat) : Int), printNat (k + 1))) ∧
    (∀ (N k : Nat), runSequencer N (some (printNat k)) =
        some ((List.range N).map (fun i => ((k + 1 + i : Nat) : Int)),
          some (printNat (k + N)))) ∧
    (∀ N : Nat, runSequencer (N + 1) none =
        some ((List.range (N + 1)).map (fun i => ((1 + i : Nat) : Int)),
          some (printNat (N + 1)))) := by
  have hstep : ∀ k : Nat, get_group_number (some (printNat k)) =
      some (((k + 1 : Nat) : Int), printNat (k + 1)) := by
    intro k
    rw [get_group_number_printNat k]
    have h2 : ((k : Int) + 1) = ((k + 1 : Nat) : Int) := by push_cast; ring
    rw [h2, pyStr_natCast]
  have hrun : ∀ (N k : Nat), runSequencer N (some (printNat k)) =
      some ((List.range N).map (fun i => ((k + 1 + i : Nat) : Int)),
        some (printNat (k + N))) := by
    intro N
    induction N with
    | zero => intro k; simp [runSequencer]
    | succ n ih =>
      intro k
      simp only [runSequencer, hstep k, ih (k + 1), Option.map_some',
        Option.some.injEq, Prod.mk.injEq]
      refine ⟨?_, by rw [show k + 1 + n = k + (n + 1) from by omega]⟩
      rw [map_range_succ_cast (k + 1) n]
  refine ⟨rfl, hstep, hrun, fun N => ?_⟩
  have h1 : get_group_number none = some (((1 : Nat) : Int), printNat 1) := rfl
  simp only [runSequencer, h1, hrun N 1, Option.map_some', Option.some.injEq,
    Prod.mk.injEq]
  refine ⟨?_, by rw [show 1 + N = N + 1 from by omega]⟩
  rw [map_range_succ_cast 1 N]

/-!
JSON-backed Dropbox files.  `read_file_f*om_dropbox` returns `None` on an
API error (modelled `absent`); `json.loads` on present content either
raises `JSONDecodeError` (modelled `malformed`; the scripts do not catch
it, so functions that hit it are modelled as returning `none`) or yields
the decoded value (`parsed`).
-/

/-- State of a JSON file in Dropbox as the scripts see it. -/
inductive BlobJson (α : Type) where
  | absent
  | malformed
  | parsed (value : α)
deriving DecidableEq

/-- Embedding of the `data = json.loads(content) if content else []`
idiom: absent (or empty) content gives `[]`, malformed content raises. -/
def blobList {α : Type} : BlobJson (List α) → Option (List α)
  | .absent => some []
  | .malformed => none
  | .parsed l => some l

/-- One record of `keyword_output_log.json`, as written by
`rename_output_file` in keyword_rename_and_log_output.py. -/
structure CollectionLogEntry where
  file_name : String
  creation_time : String
  group_number : Int
  success : Bool
deriving DecidableEq

/-- Parse a natural number written in decimal. -/
def parseNat (s : String) : Option Nat := parseDigits s.data

/-- Gregorian leap-year test. -/
def isLeapYear (y : Nat) : Bool :=
  (y % 4 == 0 && y % 100 != 0) || (y % 400 == 0)

/-- Number of days in a month of the Gregorian calendar. -/
def daysInMonth (y m : Nat) : Nat :=
  if m = 2 then (if isLeapYear y then 29 else 28)
  else if m = 4 ∨ m = 6 ∨ m = 9 ∨ m = 11 then 30 else 31

/-- Days from 1970-01-01 to the given civil date (standard
`days_from_civil` algorithm; Python `//` is floor division, `Int.fdiv`). -/
def daysFromCivil (y m d : Nat) : Int :=
  let yi : Int := if m ≤ 2 then (y : Int) - 1 else (y : Int)
  let era : Int := yi.fdiv 400
  let yoe : Int := yi - era * 400
  let mp : Int := ((m : Int) + 9) % 12
  let doy : Int := (153 * mp + 2).fdiv 5 + (d : Int) - 1
  let doe : Int := yoe * 365 + yoe.fdiv 4 - yoe.fdiv 100 + doy
  era * 146097 + doe - 719468

/-- Split a character list at every occurrence of `sep` (model of
splitting a string on a one-character separator). -/
def splitOnChar (sep : Char) : List Char → List (List Char)
  | [] => [[]]
  | c :: rest =>
    let r := splitOnChar sep rest
    if c = sep then [] :: r
    else
      match r with
      | [] => [[c]]
      | g :: gs => (c :: g) :: gs

/-- Embedding of
`datetime.datetime.strptime(s, "%Y-%m-%d-%H-%M-%S")`, reduced to the
seconds-since-epoch value of the parsed datetime (all the scripts do with
the datetime is subtract such values); `none` models the `ValueError`
raised on a string not of the fixed format. -/
def parseTimestamp (s : String) : Option Int :=
  match splitOnChar '-' s.data with
  | [ys, ms, ds, hs, mins, ss] => do
    let y ← parseDigits ys
    let m ← parseDigits ms
    let d ← parseDigits ds
    let hh ← parseDigits hs
    let mi ← parseDigits mins
    let sec ← parseDigits ss
    if 1 ≤ y ∧ y ≤ 9999 ∧ 1 ≤ m ∧ m ≤ 12 ∧ 1 ≤ d ∧ d ≤ daysInMonth y m ∧
        hh ≤ 23 ∧ mi ≤ 59 ∧ sec ≤ 59 then
      some (daysFromCivil y m d * 86400 + (hh : Int) * 3600 + (mi : Int) * 60 + (sec : Int))
    else none
  | _ => none

/-- Age of an entry in hours: `(current_time - creation_time).total_seconds() / 3600`
(exact rational arithmetic in place of Python floats; both are exact on
the second-resolution values and the integer window bounds involved;
`Rat.divInt` is the rational division, see `entryAge_eq_div`). -/
def entryAge (now ct : Int) : ℚ := Rat.divInt (now - ct) 3600

theorem entryAge_eq_div (now ct : Int) :
    entryAge now ct = ((now - ct : Int) : ℚ) / 3600 := by
  unfold entryAge
  rw [Rat.divInt_eq_div]
  norm_num

/-- Loop body of `get_groups_to_track`: parse the entry's creation time
(an unparseable one raises out of the whole function) and append the
file name and group number when `0 <= age_hours <= tracking_window_hours`. -/
def keepStep (now : Int) (W : ℚ) (acc : List String × List Int)
    (e : CollectionLogEntry) : Option (List String × List Int) :=
  (parseTimestamp e.creation_time).map (fun ct =>
    if 0 ≤ entryAge now ct ∧ entryAge now ct ≤ W then
      (acc.1 ++ [e.file_name], acc.2 ++ [e.group_number])
    else acc)

/-- Embedding of `get_groups_to_track`
(determine_groups_generate_id_list.py): absent log gives the empty
selection, a log whose content `json.loads` rejects raises
(`none`), a parsed log is filtered by the tracking window. -/
def get_groups_to_track (blob : BlobJson (List CollectionLogEntry))
    (now : Int) (W : ℚ) : Option (List String × List Int) :=
  match blob with
  | .absent => some ([], [])
  | .malformed => none
  | .parsed log => log.foldlM (keepStep now W) ([], [])

/-- Decision used by the window filter, made explicit for the statement. -/
def withinWindow (now : Int) (W : ℚ) (e : CollectionLogEntry) : Bool :=
  match parseTimestamp e.creation_time with
  | none => false
  | some ct => decide (0 ≤ entryAge now ct ∧ entryAge now ct ≤ W)

theorem foldlM_keepStep (now : Int) (W : ℚ) (log : List CollectionLogEntry)
    (hts : ∀ e ∈ log, (parseTimestamp e.creation_time).isSome)
    (acc : List String × List Int) :
    log.foldlM (keepStep now W) acc =
      some (acc.1 ++ (log.filter (withinWindow now W)).map (·.file_name),
        acc.2 ++ (log.filter (withinWindow now W)).map (·.group_number)) := by
  induction log generalizing acc with
  | nil => simp
  | cons e rest ih =>
    obtain ⟨ct, hct⟩ := Option.isSome_iff_exists.mp
      (hts e (List.mem_cons_self e rest))
    have hrest : ∀ x ∈ rest, (parseTimestamp x.creation_time).isSome :=
      fun x hx => hts x (List.mem_cons_of_mem e hx)
    have hwin : withinWindow now W e =
        decide (0 ≤ entryAge now ct ∧ entryAge now ct ≤ W) := by
      unfold withinWindow
      rw [hct]
    have hstep : keepStep now W acc e =
        some (if 0 ≤ entryAge now ct ∧ entryAge now ct ≤ W then
          (acc.1 ++ [e.file_name], acc.2 ++ [e.group_number]) else acc) := by
      unfold keepStep
      rw [hct, Option.map_some']
    rw [List.foldlM_cons, hstep, Option.bind_eq_bind, Option.some_bind]
    by_cases hcond : 0 ≤ entryAge now ct ∧ entryAge now ct ≤ W
    · rw [if_pos hcond, ih hrest]
      have hw : withinWindow now W e = true := by
        rw [hwin]; exact decide_eq_true hcond
      rw [List.filter_cons_of_pos hw]
      simp [List.append_assoc]
    · rw [if_neg hcond, ih hrest]
      have hw : withinWindow now W e = false := by
        rw [hwin]; exact decide_eq_false hcond
      rw [List.filter_cons_of_neg (by rw [hw]; exact Bool.false_ne_true)]

/-- C2: on a parsed collection log whose timestamps all parse, the
selection keeps exactly the entries with `0 ≤ age ≤ window` hours (age
equal to the window included, older or future-dated entries excluded),
as a pair of parallel file-name/group-number lists in input order. -/
theorem windowSelector_select (log : List CollectionLogEntry) (now : Int) (W : ℚ)
    (hts : ∀ e ∈ log, (parseTimestamp e.creation_time).isSome) :
    get_groups_to_track (.parsed log) now W =
      some ((log.filter (withinWindow now W)).map (·.file_name),
        (log.filter (withinWindow now W)).map (·.group_number)) ∧
    (∀ (e : CollectionLogEntry) (ct : Int), parseTimestamp e.creation_time = some ct →
      (withinWindow now W e = true ↔ 0 ≤ entryAge now ct ∧ entryAge now ct ≤ W)) ∧
    (∀ (e : CollectionLogEntry) (ct : Int), parseTimestamp e.creation_time = some ct →
      entryAge now ct = W → 0 ≤ W → withinWindow now W e = true) ∧
    (∀ (e : CollectionLogEntry) (ct : Int), parseTimestamp e.creation_time = some ct →
      W < entryAge now ct → withinWindow now W e = false) ∧
    (∀ (e : CollectionLogEntry) (ct : Int), parseTimestamp e.creation_time = some ct →
      entryAge now ct < 0 → withinWindow now W e = false) := by
  have hiff : ∀ (e : CollectionLogEntry) (ct : Int),
      parseTimestamp e.creation_time = some ct →
      (withinWindow now W e = true ↔ 0 ≤ entryAge now ct ∧ entryAge now ct ≤ W) := by
    intro e ct hct
    unfold withinWindow
    rw [hct]
    exact decide_eq_true_iff
  refine ⟨?_, hiff, ?_, ?_, ?_⟩
  · show log.foldlM (keepStep now W) ([], []) = _
    rw [foldlM_keepStep now W log hts ([], [])]
    simp
  · intro e ct hct hage hW
    exact (hiff e ct hct).mpr ⟨by rw [hage]; exact hW, le_of_eq hage⟩
  · intro e ct hct hgt
    rw [Bool.eq_false_iff]
    intro htrue
    exact absurd ((hiff e ct hct).mp htrue).2 (not_le.mpr hgt)
  · intro e ct hct hneg
    rw [Bool.eq_false_iff]
    intro htrue
    exact absurd ((hiff e ct hct).mp htrue).1 (not_le.mpr hneg)

/-- Witness for C2 at the spec's end-to-end scenario: one entry created
at 1970-01-01-00-00-00, now 24 hours later, windows of 48 and 12 hours. -/
theorem windowSelector_select_witness :
    (∀ e ∈ [CollectionLogEntry.mk "a" "1970-01-01-00-00-00" 1 true],
      (parseTimestamp e.creation_time).isSome) ∧
    get_groups_to_track
        (.parsed [CollectionLogEntry.mk "a" "1970-01-01-00-00-00" 1 true])
        86400 48 = some (["a"], [1]) ∧
    get_groups_to_track
        (.parsed [CollectionLogEntry.mk "a" "1970-01-01-00-00-00" 1 true])
        86400 12 = some ([], []) := by
  refine ⟨by decide, ?_, ?_⟩
  · rw [(windowSelector_select
      [CollectionLogEntry.mk "a" "1970-01-01-00-00-00" 1 true] 86400 48
      (by decide)).1]
    decide
  · rw [(windowSelector_select
      [CollectionLogEntry.mk "a" "1970-01-01-00-00-00" 1 true] 86400 12
      (by decide)).1]
    decide

/-- Counterexample for C9: on a present-but-unparseable collection log
the selection does not return the empty pair; the uncaught
`json.JSONDecodeError` aborts the call. -/
theorem windowSelector_malformed_not_empty :
    get_groups_to_track (BlobJson.malformed) 0 48 ≠ some ([], []) := by
  intro h
  exact Option.noConfusion h

/-- C9 as amended: an absent collection log yields the empty selection
as a normal result, while a present-but-unparseable one raises an
uncaught `json.JSONDecodeError` (modelled `none`) instead. -/
theorem windowSelector_absent_empty_malformed_raises :
    (∀ (now : Int) (W : ℚ), get_groups_to_track .absent now W = some ([], [])) ∧
    (∀ (now : Int) (W : ℚ), get_groups_to_track .malformed now W = none) :=
  ⟨fun _ _ => rfl, fun _ _ => rfl⟩

/-!
IdAggregator (`combine_posts_from_groups`,
determine_groups_generate_id_list.py).  A raw file downloaded from
Dropbox is `none` when the download fails (skipped with a diagnostic) and
otherwise a list of lines; each line is `none` when `json.loads` raises
`JSONDecodeError` (caught: skipped with a diagnostic) and otherwise the
decoded JSON object's string fields.  `entry['mblogid']` on an object
without that key raises an uncaught `KeyError`, modelled by the whole
aggregation returning `none`.  The Python `set` of identifiers is
modelled by a `Finset String`; the script's final `list(unique_ids)` is
an arbitrary-order enumeration of exactly that set.
-/

/-- Python dict subscript on the decoded object's fields. -/
def lookupField (key : String) : List (String × String) → Option String
  | [] => none
  | (k, v) :: rest => if k = key then some v else lookupField key rest

/-- Body of the inner loop of `combine_posts_from_groups`: skip an
undecodable line, abort on a missing `mblogid` key, otherwise add the
identifier to the set. -/
def processLine (acc : Finset String) (line : Option (List (String × String))) :
    Option (Finset String) :=
  match line with
  | none => some acc
  | some fields =>
    match lookupField "mblogid" fields with
    | none => none
    | some v => some (insert v acc)

/-- Body of the outer loop: skip an unreadable file, otherwise process
its lines in order. -/
def processFile (acc : Finset String)
    (file : Option (List (Option (List (String × String))))) :
    Option (Finset String) :=
  match file with
  | none => some acc
  | some lines => lines.foldlM processLine acc

/-- Embedding of `combine_posts_from_groups`: fold all files into one
deduplicated identifier set, starting from the empty set. -/
def combine_posts_from_groups
    (files : List (Option (List (Option (List (String × String)))))) :
    Option (Finset String) :=
  files.foldlM processFile ∅

/-- Identifiers contributed by one line (spec reading: the `mblogid` of a
line that parses as a JSON record). -/
def lineIds (line : Option (List (String × String))) : Finset String :=
  match line with
  | none => ∅
  | some fields =>
    match lookupField "mblogid" fields with
    | none => ∅
    | some v => {v}

/-- Identifiers contributed by one raw file. -/
def fileIds (file : Option (List (Option (List (String × String))))) :
    Finset String :=
  match file with
  | none => ∅
  | some lines => lines.foldr (fun l acc => lineIds l ∪ acc) ∅

/-- Set of all `mblogid` values of the lines that parse as JSON records,
straight from the spec's description of the aggregate. -/
def allIds (files : List (Option (List (Option (List (String × String)))))) :
    Finset String :=
  files.foldr (fun f acc => fileIds f ∪ acc) ∅

/-- Every line that decodes as a JSON object carries the `mblogid` key
(otherwise the script dies with `KeyError`). -/
def goodLine : Option (List (String × String)) → Bool
  | none => true
  | some fields => (lookupField "mblogid" fields).isSome

/-- All decoded lines of a readable file are good. -/
def goodFile : Option (List (Option (List (String × String)))) → Bool
  | none => true
  | some lines => lines.all goodLine

/-- All files are good. -/
def goodFiles (files : List (Option (List (Option (List (String × String)))))) :
    Bool :=
  files.all goodFile

theorem processLine_eq (acc : Finset String)
    (line : Option (List (String × String))) (h : goodLine line = true) :
    processLine acc line = some (lineIds line ∪ acc) := by
  cases line with
  | none => simp [processLine, lineIds]
  | some fields =>
    cases hl : lookupField "mblogid" fields with
    | none =>
      exact absurd (by simpa [goodLine, hl] using h) Bool.false_ne_true
    | some v =>
      simp [processLine, lineIds, hl, Finset.insert_eq]

theorem foldlM_processLine (lines : List (Option (List (String × String))))
    (h : ∀ l ∈ lines, goodLine l = true) (acc : Finset String) :
    lines.foldlM processLine acc =
      some (lines.foldr (fun l a => lineIds l ∪ a) ∅ ∪ acc) := by
  induction lines generalizing acc with
  | nil => simp
  | cons l rest ih =>
    rw [List.foldlM_cons, processLine_eq acc l (h l (List.mem_cons_self l rest)),
      Option.bind_eq_bind, Option.some_bind,
      ih (fun x hx => h x (List.mem_cons_of_mem l hx))]
    rw [List.foldr_cons]
    congr 1
    rw [← Finset.union_assoc,
      Finset.union_comm (rest.foldr (fun l a => lineIds l ∪ a) ∅) (lineIds l)]

theorem processFile_eq (acc : Finset String)
    (file : Option (List (Option (List (String × String)))))
    (h : goodFile file = true) :
    processFile acc file = some (fileIds file ∪ acc) := by
  cases file with
  | none => simp [processFile, fileIds]
  | some lines =>
    have hl : ∀ l ∈ lines, goodLine l = true := by
      simpa [goodFile, List.all_eq_true] using h
    show lines.foldlM processLine acc = _
    rw [foldlM_processLine lines hl acc]
    rfl

theorem combine_eq_allIds
    (files : List (Option (List (Option (List (String × String))))))
    (h : goodFiles files = true) :
    combine_posts_from_groups files = some (allIds files) := by
  have key : ∀ (fs : List (Option (List (Option (List (String × String))))))
      (acc : Finset String), (∀ f ∈ fs, goodFile f = true) →
      fs.foldlM processFile acc =
        some (fs.foldr (fun f a => fileIds f ∪ a) ∅ ∪ acc) := by
    intro fs
    induction fs with
    | nil => intro acc _; simp
    | cons f rest ih =>
      intro acc hall
      rw [List.foldlM_cons, processFile_eq acc f (hall f (List.mem_cons_self f rest)),
        Option.bind_eq_bind, Option.some_bind,
        ih _ (fun x hx => hall x (List.mem_cons_of_mem f hx))]
      rw [List.foldr_cons]
      congr 1
      rw [← Finset.union_assoc,
        Finset.union_comm (rest.foldr (fun f a => fileIds f ∪ a) ∅) (fileIds f)]
  have hall : ∀ f ∈ files, goodFile f = true := by
    simpa [goodFiles, List.all_eq_true] using h
  show files.foldlM processFile ∅ = _
  rw [key files ∅ hall]
  simp [allIds]

theorem allIds_append
    (a b : List (Option (List (Option (List (String × String)))))) :
    allIds (a ++ b) = allIds a ∪ allIds b := by
  induction a with
  | nil => simp [allIds]
  | cons f rest ih =>
    show fileIds f ∪ allIds (rest ++ b) = (fileIds f ∪ allIds rest) ∪ allIds b
    rw [ih, Finset.union_assoc]

theorem allIds_cons (f : Option (List (Option (List (String × String)))))
    (fs : List (Option (List (Option (List (String × String)))))) :
    allIds (f :: fs) = fileIds f ∪ allIds fs := rfl

theorem allIds_perm
    {F F' : List (Option (List (Option (List (String × String)))))}
    (p : F.Perm F') : allIds F = allIds F' := by
  induction p with
  | nil => rfl
  | cons x _ ih =>
    rw [allIds_cons, allIds_cons, ih]
  | swap x y l =>
    rw [allIds_cons, allIds_cons, allIds_cons, allIds_cons,
      ← Finset.union_assoc, Finset.union_comm (fileIds y) (fileIds x),
      Finset.union_assoc]
  | trans _ _ ih1 ih2 => exact ih1.trans ih2

/-- C3: on raw files all of whose decoded lines carry the `mblogid` key,
the aggregate is exactly the set of those identifiers (each once, since
it is a set); undecodable lines and unreadable files are skipped without
aborting; aggregating the same sequence twice adds nothing; and any
permutation of the files yields the same set. -/
theorem idAggregator_aggregate
    (files : List (Option (List (Option (List (String × String))))))
    (h : goodFiles files = true) :
    combine_posts_from_groups files = some (allIds files) ∧
    combine_posts_from_groups (files ++ files) = some (allIds files) ∧
    (∀ files', files.Perm files' →
      combine_posts_from_groups files' = some (allIds files)) := by
  have hall : ∀ f ∈ files, goodFile f = true := by
    simpa [goodFiles, List.all_eq_true] using h
  refine ⟨combine_eq_allIds files h, ?_, ?_⟩
  · have hdup : goodFiles (files ++ files) = true := by
      simp only [goodFiles, List.all_eq_true]
      intro f hf
      rcases List.mem_append.mp hf with hf | hf
      · exact hall f hf
      · exact hall f hf
    rw [combine_eq_allIds (files ++ files) hdup, allIds_append,
      Finset.union_self]
  · intro files' hp
    have hall' : goodFiles files' = true := by
      simp only [goodFiles, List.all_eq_true]
      intro f hf
      exact hall f (hp.symm.mem_iff.mp hf)
    rw [combine_eq_allIds files' hall', allIds_perm hp]

/-- Witness for C3: two readable files with ids x,y and y,z plus an
undecodable line and an unreadable file; the aggregate is `{x, y, z}`. -/
theorem idAggregator_aggregate_witness :
    goodFiles [some [some [("mblogid", "x")], none, some [("mblogid", "y")]],
      some [some [("mblogid", "y")], some [("mblogid", "z")]], none] = true ∧
    combine_posts_from_groups
        [some [some [("mblogid", "x")], none, some [("mblogid", "y")]],
          some [some [("mblogid", "y")], some [("mblogid", "z")]], none] =
      some {"x", "y", "z"} := by
  refine ⟨by decide, ?_⟩
  rw [(idAggregator_aggregate
    [some [some [("mblogid", "x")], none, some [("mblogid", "y")]],
      some [some [("mblogid", "y")], some [("mblogid", "z")]], none]
    (by decide)).1]
  decide

/-!
Logging layer shared by keyword_rename_and_log_output.py and
repost_rename_and_log_output.py.  All `datetime.datetime.now()` readings
within one run are modelled by a single clock string `now` (the scripts
re-read the clock a few seconds apart inside one run; no claim depends on
the sub-run drift).  Renaming the local file and uploading it to the
Dropbox output directory touch no log path and are not part of the
tracked state.
-/

/-- Entry of an error log: `{time, error}`. -/
structure ErrorEntry where
  time : String
  error : String
deriving DecidableEq

/-- Embedding of `update_log` (keyword_rename_and_log_output.py): read
the existing JSON array (absent/empty content gives `[]`, content that
`json.loads` rejects raises), append the entry, write back. -/
def update_log {α : Type} (log_data : α) (blob : BlobJson (List α)) :
    Option (List α) :=
  (blobList blob).map (fun data => data ++ [log_data])

/-- Embedding of `log_error` (identical shape in both scripts): append
`{time, error}` to the error-log array. -/
def log_error (error_message : String) (now : String)
    (blob : BlobJson (List ErrorEntry)) : Option (List ErrorEntry) :=
  (blobList blob).map (fun data => data ++ [ErrorEntry.mk now error_message])

/-- Per-group record of `repost_group_tracking_status.json`. -/
structure GroupStatus where
  group_number : Int
  original_creation_time : String
  tracked_times : Int
  last_tracked : String
deriving DecidableEq

/-- Record of `repost_output_log.json`.  `filename` is `None` (JSON
`null`) when the failed rename handed `None` on; `groups_in_it` models
the `", ".join(group_numbers)` string by the list of strings joined. -/
structure TrackingLogEntry where
  filename : Option String
  creation_time : String
  groups_in_it : List String
  success : Bool
deriving DecidableEq

/-- Embedding of `get_original_creation_time`
(repost_rename_and_log_output.py): absent keyword log gives the sentinel
"Unknown", a log whose content `json.loads` rejects raises, otherwise the
`creation_time` of the first entry with the given group number, or
"Unknown" when there is none. -/
def get_original_creation_time (blob : BlobJson (List CollectionLogEntry))
    (g : Int) : Option String :=
  match blob with
  | .absent => some "Unknown"
  | .malformed => none
  | .parsed log =>
    some (((log.find? (fun e => decide (e.group_number = g))).map
      (fun e => e.creation_time)).getD "Unknown")

/-- Pure core of `record_group_tracking_status`: update the first entry
keyed by `g` in place (increment `tracked_times`, overwrite
`last_tracked`), or append a fresh entry with `tracked_times = 1`. -/
def updateStatusTable (g : Int) (oct now : String) :
    List GroupStatus → List GroupStatus
  | [] => [GroupStatus.mk g oct 1 now]
  | e :: rest =>
    if e.group_number = g then
      { e with tracked_times := e.tracked_times + 1, last_tracked := now } :: rest
    else e :: updateStatusTable g oct now rest

/-- Embedding of `record_group_tracking_status`
(repost_rename_and_log_output.py): look up the original creation time,
read the status table (absent/empty gives `[]`, malformed raises),
update it, write it back. -/
def record_group_tracking_status (g : Int)
    (collectionLog : BlobJson (List CollectionLogEntry))
    (blob : BlobJson (List GroupStatus)) (now : String) :
    Option (List GroupStatus) := do
  let oct ← get_original_creation_time collectionLog g
  let tracking_status ← blobList blob
  pure (updateStatusTable g oct now tracking_status)

/-- Embedding of `record_tracking` (repost_rename_and_log_output.py):
append one tracking record to `repost_output_log.json`. -/
def record_tracking (filename : Option String) (creation_time : String)
    (group_numbers : List String) (blob : BlobJson (List TrackingLogEntry))
    (success : Bool) : Option (List TrackingLogEntry) :=
  (blobList blob).map
    (fun data => data ++ [TrackingLogEntry.mk filename creation_time group_numbers success])

/-- Python `str.splitlines()` restricted to `\n` line boundaries (the
only terminator these newline-joined files contain): no trailing empty
line, and the empty string gives no lines. -/
def pySplitlines (s : String) : List String :=
  if s = "" then []
  else
    let gs := (splitOnChar '\n' s.data).map (fun l => (⟨l⟩ : String))
    if gs.getLast? = some "" then gs.dropLast else gs

/-- Return value of the keyword `rename_output_file`: Python returns the
tuple `(None, False)` on failure and the bare new file name on success. -/
inductive RenameReturn where
  | failure
  | renamed (name : String)
deriving DecidableEq

/-- Canonical name `f"{formatted_time}_group_{group_number}.jsonl"`. -/
def keywordDataFileName (time : String) (group_number : Int) : String :=
  time ++ "_group_" ++ pyStr group_number ++ ".jsonl"

namespace Keyword

/-- Embedding of `rename_output_file`
(keyword_rename_and_log_output.py).  The scan of the local directory
renames and uploads the first `.jsonl` file; the log entry (success flag
included) is appended to the output log unconditionally, and on failure
one entry is also appended to the error log and `(None, False)` is
returned.  Result: return value, new output log, new error log. -/
def rename_output_file (now : String) (group_number : Int)
    (localFiles : List String)
    (outputLog : BlobJson (List CollectionLogEntry))
    (errorLog : BlobJson (List ErrorEntry)) :
    Option (RenameReturn × BlobJson (List CollectionLogEntry) ×
      BlobJson (List ErrorEntry)) := do
  let data_file_name := keywordDataFileName now group_number
  let found_file := localFiles.any (fun f => pyEndswith f ".jsonl")
  let log_data : CollectionLogEntry :=
    CollectionLogEntry.mk (if found_file then data_file_name else "None")
      now group_number found_file
  let newOutputLog ← update_log log_data outputLog
  if found_file then
    pure (RenameReturn.renamed data_file_name, BlobJson.parsed newOutputLog, errorLog)
  else do
    let newErrorLog ← log_error
      ("No output file found for group " ++ pyStr group_number) now errorLog
    pure (RenameReturn.failure, BlobJson.parsed newOutputLog,
      BlobJson.parsed newErrorLog)

end Keyword

/-- Canonical repost name
`f"{creation_time}_group_{first_group}_group_{last_group}.jsonl"`. -/
def repostFileName (time first lastGroup : String) : String :=
  time ++ "_group_" ++ first ++ "_group_" ++ lastGroup ++ ".jsonl"

namespace Repost

/-- Embedding of `rename_output_file`
(repost_rename_and_log_output.py): absent group-range file returns
`(None, False)` without logging; a present one is split into lines and
the first/last line indexed (`none` models the uncaught `IndexError` on
an empty file); with no local `.jsonl` file an error is logged and
`(None, False)` returned, otherwise the new name and `True`. -/
def rename_output_file (now : String) (groupRange : Option String)
    (localFiles : List String) (errorLog : BlobJson (List ErrorEntry)) :
    Option ((Option String × Bool) × BlobJson (List ErrorEntry)) :=
  match groupRange with
  | none => some ((none, false), errorLog)
  | some content =>
    match pySplitlines content with
    | [] => none
    | hd :: t =>
      let first := pyStrip hd
      let lastv := pyStrip ((hd :: t).getLast (List.cons_ne_nil hd t))
      let new_file_name := repostFileName now first lastv
      let found_file := localFiles.any (fun f => pyEndswith f ".jsonl")
      if found_file then some ((some new_file_name, true), errorLog)
      else
        (log_error ("No output file found for group " ++ first ++
            " to group " ++ lastv ++ " at " ++ now) now errorLog).map
          (fun el => ((none, false), BlobJson.parsed el))

/-- One iteration of the status loop in `log`: convert the line to an
integer (`int` raises on junk) and run `record_group_tracking_status`,
whose write makes the table parsed for the next iteration. -/
def statusStep (collectionLog : BlobJson (List CollectionLogEntry))
    (now : String) (table : BlobJson (List GroupStatus)) (s : String) :
    Option (BlobJson (List GroupStatus)) := do
  let g ← pyInt s
  let t ← record_group_tracking_status g collectionLog table now
  pure (BlobJson.parsed t)

/-- Embedding of `log` (repost_rename_and_log_output.py).  `succ` is the
module-global `success` set by `__main__` from the rename result (the
function body reads the global `success` variable).  Absent group-range
file returns with nothing logged; otherwise one tracking record is
appended and every listed group's status is updated. -/
def log (new_file_name : Option String) (succ : Bool) (now : String)
    (groupRange : Option String)
    (collectionLog : BlobJson (List CollectionLogEntry))
    (trackingLog : BlobJson (List TrackingLogEntry))
    (statusTable : BlobJson (List GroupStatus)) :
    Option (BlobJson (List TrackingLogEntry) × BlobJson (List GroupStatus)) :=
  match groupRange with
  | none => some (trackingLog, statusTable)
  | some content => do
    let group_numbers := pySplitlines content
    let newTrackingLog ← record_tracking new_file_name now group_numbers
      trackingLog succ
    let finalTable ← group_numbers.foldlM (statusStep collectionLog now)
      statusTable
    pure (BlobJson.parsed newTrackingLog, finalTable)

/-- Embedding of the `__main__` block of
repost_rename_and_log_output.py: rename, then log — unconditionally,
whatever the rename outcome.  Result: error log, tracking log, status
table after the run. -/
def main (now : String) (groupRange : Option String)
    (localFiles : List String)
    (collectionLog : BlobJson (List CollectionLogEntry))
    (trackingLog : BlobJson (List TrackingLogEntry))
    (statusTable : BlobJson (List GroupStatus))
    (errorLog : BlobJson (List ErrorEntry)) :
    Option (BlobJson (List ErrorEntry) × BlobJson (List TrackingLogEntry) ×
      BlobJson (List GroupStatus)) := do
  let ((new_file_name, succ), errorLog') ←
    rename_output_file now groupRange localFiles errorLog
  let (tl, gs) ← log new_file_name succ now groupRange collectionLog
    trackingLog statusTable
  pure (errorLog', tl, gs)

end Repost

/-- C7: appending to a run log or error log whose prior state is absent
(treated as `[]`) or a parsed array produces a log exactly one longer
with every prior entry unchanged at its original position and the new
entry at the end. -/
theorem append_only_log_growth {α : Type} (blob : BlobJson (List α))
    (prior : List α) (entry : α) (eblob : BlobJson (List ErrorEntry))
    (epri : List ErrorEntry) (msg now : String)
    (h : blobList blob = some prior) (he : blobList eblob = some epri) :
    update_log entry blob = some (prior ++ [entry]) ∧
    (prior ++ [entry]).length = prior.length + 1 ∧
    (∀ i, i < prior.length → (prior ++ [entry])[i]? = prior[i]?) ∧
    (prior ++ [entry])[prior.length]? = some entry ∧
    log_error msg now eblob = some (epri ++ [ErrorEntry.mk now msg]) ∧
    (epri ++ [ErrorEntry.mk now msg]).length = epri.length + 1 ∧
    (∀ i, i < epri.length → (epri ++ [ErrorEntry.mk now msg])[i]? = epri[i]?) ∧
    (epri ++ [ErrorEntry.mk now msg])[epri.length]? = some (ErrorEntry.mk now msg) := by
  refine ⟨?_, by simp, ?_, List.getElem?_concat_length prior entry, ?_,
    by simp, ?_, List.getElem?_concat_length epri (ErrorEntry.mk now msg)⟩
  · unfold update_log
    rw [h, Option.map_some']
  · intro i hi
    rw [List.getElem?_append, if_pos hi]
  · unfold log_error
    rw [he, Option.map_some']
  · intro i hi
    rw [List.getElem?_append, if_pos hi]

/-- Witness for C7: append 3 to the parsed log [1, 2] and an error entry
to an absent error log. -/
theorem append_only_log_growth_witness :
    blobList (BlobJson.parsed [(1 : Int), 2]) = some [1, 2] ∧
    blobList (BlobJson.absent : BlobJson (List ErrorEntry)) = some [] ∧
    update_log (3 : Int) (BlobJson.parsed [1, 2]) = some ([1, 2] ++ [3]) ∧
    log_error "boom" "t" BlobJson.absent = some ([] ++ [ErrorEntry.mk "t" "boom"]) := by
  refine ⟨rfl, rfl, ?_, ?_⟩
  · exact (append_only_log_growth (BlobJson.parsed [(1 : Int), 2]) [1, 2] 3
      BlobJson.absent [] "boom" "t" rfl rfl).1
  · exact (append_only_log_growth (BlobJson.parsed [(1 : Int), 2]) [1, 2] 3
      BlobJson.absent [] "boom" "t" rfl rfl).2.2.2.2.1

theorem updateStatusTable_found (g : Int) (oct now : String)
    (pre : List GroupStatus) (e : GroupStatus) (post : List GroupStatus)
    (hpre : ∀ x ∈ pre, x.group_number ≠ g) (he : e.group_number = g) :
    updateStatusTable g oct now (pre ++ e :: post) =
      pre ++ { e with
        tracked_times := e.tracked_times + 1
        last_tracked := now } :: post := by
  induction pre with
  | nil =>
    show updateStatusTable g oct now (e :: post) = _
    unfold updateStatusTable
    rw [if_pos he]
    rfl
  | cons x rest ih =>
    show updateStatusTable g oct now (x :: (rest ++ e :: post)) = _
    unfold updateStatusTable
    rw [if_neg (hpre x (List.mem_cons_self x rest))]
    rw [ih (fun y hy => hpre y (List.mem_cons_of_mem x hy))]
    rfl

theorem updateStatusTable_notFound (g : Int) (oct now : String)
    (table : List GroupStatus) (h : ∀ x ∈ table, x.group_number ≠ g) :
    updateStatusTable g oct now table = table ++ [GroupStatus.mk g oct 1 now] := by
  induction table with
  | nil => rfl
  | cons x rest ih =>
    show updateStatusTable g oct now (x :: rest) = _
    unfold updateStatusTable
    rw [if_neg (h x (List.mem_cons_self x rest))]
    rw [ih (fun y hy => h y (List.mem_cons_of_mem x hy))]
    rfl

/-- C6: `record_group_tracking_status` increments `tracked_times` and
overwrites `last_tracked` of the first entry keyed by `g`, leaving its
`original_creation_time` and all other entries unchanged; with no entry
for `g` it appends a fresh entry with `tracked_times = 1` whose
`original_creation_time` comes from the collection log, or "Unknown"
when that log is absent or has no entry for `g`. -/
theorem trackingStatusTable_recordTracking (g : Int) (oct now : String)
    (clog : BlobJson (List CollectionLogEntry))
    (blob : BlobJson (List GroupStatus)) (table : List GroupStatus)
    (hb : blobList blob = some table)
    (hoct : get_original_creation_time clog g = some oct) :
    record_group_tracking_status g clog blob now =
      some (updateStatusTable g oct now table) ∧
    (∀ pre e post, table = pre ++ e :: post →
      (∀ x ∈ pre, x.group_number ≠ g) → e.group_number = g →
      updateStatusTable g oct now table =
        pre ++ { e with
          tracked_times := e.tracked_times + 1
          last_tracked := now } :: post) ∧
    ((∀ x ∈ table, x.group_number ≠ g) →
      updateStatusTable g oct now table = table ++ [GroupStatus.mk g oct 1 now]) ∧
    (clog = .absent → oct = "Unknown") ∧
    (∀ l, clog = .parsed l → (∀ x ∈ l, x.group_number ≠ g) → oct = "Unknown") ∧
    (∀ l pre e post, clog = .parsed l → l = pre ++ e :: post →
      (∀ x ∈ pre, x.group_number ≠ g) → e.group_number = g →
      oct = e.creation_time) := by
  refine ⟨?_, ?_, ?_, ?_, ?_, ?_⟩
  · unfold record_group_tracking_status
    rw [hoct, hb]
    rfl
  · intro pre e post ht hpre he
    rw [ht]
    exact updateStatusTable_found g oct now pre e post hpre he
  · exact updateStatusTable_notFound g oct now table
  · intro hc
    subst hc
    simpa [get_original_creation_time] using hoct.symm
  · intro l hc hnone
    subst hc
    have hfind : l.find? (fun e => decide (e.group_number = g)) = none := by
      rw [List.find?_eq_none]
      intro x hx
      simpa using hnone x hx
    rw [get_original_creation_time, hfind] at hoct
    simpa using hoct.symm
  · intro l pre e post hc hl hpre he
    subst hc
    subst hl
    have hfind : (pre ++ e :: post).find?
        (fun x => decide (x.group_number = g)) = some e := by
      rw [List.find?_append]
      have h1 : pre.find? (fun x => decide (x.group_number = g)) = none := by
        rw [List.find?_eq_none]
        intro x hx
        simpa using hpre x hx
      rw [h1, Option.none_or, List.find?_cons_of_pos]
      simpa using he
    rw [get_original_creation_time, hfind] at hoct
    simpa using hoct.symm

/-- Witness for C6: a table with one entry for group 2, updated for
group 2 (increment) and for group 1 (fresh entry, creation time from the
collection log). -/
theorem trackingStatusTable_recordTracking_witness :
    blobList (BlobJson.parsed [GroupStatus.mk 2 "c2" 1 "t0"]) =
      some [GroupStatus.mk 2 "c2" 1 "t0"] ∧
    get_original_creation_time
      (.parsed [CollectionLogEntry.mk "a" "c1" 1 true]) 2 = some "Unknown" ∧
    record_group_tracking_status 2
        (.parsed [CollectionLogEntry.mk "a" "c1" 1 true])
        (BlobJson.parsed [GroupStatus.mk 2 "c2" 1 "t0"]) "t1" =
      some [GroupStatus.mk 2 "c2" 2 "t1"] ∧
    record_group_tracking_status 1
        (.parsed [CollectionLogEntry.mk "a" "c1" 1 true])
        (BlobJson.parsed [GroupStatus.mk 2 "c2" 1 "t0"]) "t1" =
      some [GroupStatus.mk 2 "c2" 1 "t0", GroupStatus.mk 1 "c1" 1 "t1"] := by
  refine ⟨rfl, by decide, ?_, ?_⟩
  · rw [(trackingStatusTable_recordTracking 2 "Unknown" "t1"
      (.parsed [CollectionLogEntry.mk "a" "c1" 1 true])
      (BlobJson.parsed [GroupStatus.mk 2 "c2" 1 "t0"])
      [GroupStatus.mk 2 "c2" 1 "t0"] rfl (by decide)).1]
    decide
  · rw [(trackingStatusTable_recordTracking 1 "c1" "t1"
      (.parsed [CollectionLogEntry.mk "a" "c1" 1 true])
      (BlobJson.parsed [GroupStatus.mk 2 "c2" 1 "t0"])
      [GroupStatus.mk 2 "c2" 1 "t0"] rfl (by decide)).1]
    decide

/-- Counterexample for C4: with zero candidate files the keyword variant
does not leave the other log paths unchanged — besides the one new
ErrorEntry it also appends a `success = false` record to the output log
(line 172 of keyword_rename_and_log_output.py runs unconditionally). -/
theorem outputRenamer_keyword_failure_changes_output_log :
    Keyword.rename_output_file "t" 5 [] BlobJson.absent BlobJson.absent =
      some (RenameReturn.failure,
        BlobJson.parsed [CollectionLogEntry.mk "None" "t" 5 false],
        BlobJson.parsed [ErrorEntry.mk "t"
          ("No output file found for group " ++ pyStr 5)]) ∧
    BlobJson.parsed [CollectionLogEntry.mk "None" "t" 5 false] ≠
      (BlobJson.absent : BlobJson (List CollectionLogEntry)) := by
  constructor
  · rfl
  · intro h
    exact BlobJson.noConfusion h

/-- C4 as amended: with zero candidate `.jsonl` files both rename
variants return a failure result without raising and append exactly one
ErrorEntry whose reason names the group label; the repost variant
changes nothing else, while the keyword variant additionally appends one
`success = false` record to the output log. -/
theorem outputRenamer_no_candidate (now : String) (g : Int)
    (localFiles : List String)
    (outputLog : BlobJson (List CollectionLogEntry))
    (errorLog : BlobJson (List ErrorEntry))
    (ol : List CollectionLogEntry) (el : List ErrorEntry)
    (content hd : String) (t : List String)
    (hno : localFiles.any (fun f => pyEndswith f ".jsonl") = false)
    (hol : blobList outputLog = some ol)
    (hel : blobList errorLog = some el)
    (hsp : pySplitlines content = hd :: t) :
    Keyword.rename_output_file now g localFiles outputLog errorLog =
      some (RenameReturn.failure,
        .parsed (ol ++ [CollectionLogEntry.mk "None" now g false]),
        .parsed (el ++ [ErrorEntry.mk now
          ("No output file found for group " ++ pyStr g)])) ∧
    Repost.rename_output_file now (some content) localFiles errorLog =
      some ((none, false),
        .parsed (el ++ [ErrorEntry.mk now
          ("No output file found for group " ++ pyStrip hd ++ " to group " ++
            pyStrip ((hd :: t).getLast (List.cons_ne_nil hd t)) ++
            " at " ++ now)])) := by
  constructor
  · simp only [Keyword.rename_output_file, hno, update_log, log_error, hol,
      hel, Option.map_some', Option.bind_eq_bind, Option.some_bind,
      Bool.false_eq_true, if_false]
    rfl
  · simp only [Repost.rename_output_file, hsp, hno, log_error, hel,
      Option.map_some', Bool.false_eq_true, if_false]

/-- Witness for C4 (amended): empty local directory, absent logs, group
range file "1\n3". -/
theorem outputRenamer_no_candidate_witness :
    ([] : List String).any (fun f => pyEndswith f ".jsonl") = false ∧
    blobList (BlobJson.absent : BlobJson (List CollectionLogEntry)) = some [] ∧
    blobList (BlobJson.absent : BlobJson (List ErrorEntry)) = some [] ∧
    pySplitlines "1\n3" = "1" :: ["3"] ∧
    Keyword.rename_output_file "t" 5 [] BlobJson.absent BlobJson.absent =
      some (RenameReturn.failure,
        .parsed ([] ++ [CollectionLogEntry.mk "None" "t" 5 false]),
        .parsed ([] ++ [ErrorEntry.mk "t"
          ("No output file found for group " ++ pyStr 5)])) ∧
    Repost.rename_output_file "t" (some "1\n3") [] BlobJson.absent =
      some ((none, false),
        .parsed ([] ++ [ErrorEntry.mk "t"
          ("No output file found for group " ++ pyStrip "1" ++ " to group " ++
            pyStrip (("1" :: ["3"]).getLast (List.cons_ne_nil "1" ["3"])) ++
            " at " ++ "t")])) := by
  refine ⟨rfl, rfl, rfl, by decide, ?_, ?_⟩
  · exact (outputRenamer_no_candidate "t" 5 [] BlobJson.absent BlobJson.absent
      [] [] "1\n3" "1" ["3"] rfl rfl rfl (by decide)).1
  · exact (outputRenamer_no_candidate "t" 5 [] BlobJson.absent BlobJson.absent
      [] [] "1\n3" "1" ["3"] rfl rfl rfl (by decide)).2

/-- C10: the repost `rename_output_file` needs at least one line in the
group-range file: with a readable, nonempty-lined range file and a
readable error log the call returns a value, while with a
present-but-empty range file the indexing of `group_numbers[0]` raises
`IndexError` (`none`) instead of returning the `(None, False)` failure
result. -/
theorem repost_rename_requires_nonempty_range (now content : String)
    (localFiles : List String) (errorLog : BlobJson (List ErrorEntry))
    (el : List ErrorEntry) (hel : blobList errorLog = some el) :
    (∀ hd t, pySplitlines content = hd :: t →
      ∃ r, Repost.rename_output_file now (some content) localFiles errorLog =
        some r) ∧
    (pySplitlines content = [] →
      Repost.rename_output_file now (some content) localFiles errorLog =
        none) := by
  constructor
  · intro hd t hsp
    by_cases hfound : localFiles.any (fun f => pyEndswith f ".jsonl") = true
    · refine ⟨((some (repostFileName now (pyStrip hd)
        (pyStrip ((hd :: t).getLast (List.cons_ne_nil hd t)))), true),
        errorLog), ?_⟩
      simp only [Repost.rename_output_file, hsp, hfound, if_true]
    · rw [Bool.not_eq_true] at hfound
      refine ⟨((none, false), .parsed (el ++ [ErrorEntry.mk now
        ("No output file found for group " ++ pyStrip hd ++ " to group " ++
          pyStrip ((hd :: t).getLast (List.cons_ne_nil hd t)) ++
          " at " ++ now)])), ?_⟩
      simp only [Repost.rename_output_file, hsp, hfound, log_error, hel,
        Option.map_some', Bool.false_eq_true, if_false]
  · intro hsp
    simp only [Repost.rename_output_file, hsp]

/-- Witness for C10: range content "7" gives a result, empty range
content aborts. -/
theorem repost_rename_requires_nonempty_range_witness :
    blobList (BlobJson.absent : BlobJson (List ErrorEntry)) = some [] ∧
    pySplitlines "7" = "7" :: [] ∧
    (∃ r, Repost.rename_output_file "t" (some "7") [] BlobJson.absent =
      some r) ∧
    pySplitlines "" = [] ∧
    Repost.rename_output_file "t" (some "") [] BlobJson.absent = none := by
  refine ⟨rfl, by decide, ?_, by decide, ?_⟩
  · exact (repost_rename_requires_nonempty_range "t" "7" [] BlobJson.absent
      [] rfl).1 "7" [] (by decide)
  · exact (repost_rename_requires_nonempty_range "t" "" [] BlobJson.absent
      [] rfl).2 (by decide)

/-- Original creation time that `record_group_tracking_status` ends up
using when the collection log is not malformed. -/
def octOf (clog : BlobJson (List CollectionLogEntry)) (g : Int) : String :=
  (get_original_creation_time clog g).getD "Unknown"

theorem get_original_creation_time_eq (clog : BlobJson (List CollectionLogEntry))
    (g : Int) (h : clog ≠ BlobJson.malformed) :
    get_original_creation_time clog g = some (octOf clog g) := by
  cases clog with
  | absent => rfl
  | malformed => exact absurd rfl h
  | parsed l => rfl

/-- Net effect on the status table of the per-group loop of `log`. -/
def statusFold (clog : BlobJson (List CollectionLogEntry)) (now : String)
    (gl : List Int) (T : List GroupStatus) : List GroupStatus :=
  gl.foldl (fun t g => updateStatusTable g (octOf clog g) now t) T

theorem statusStep_eq (clog : BlobJson (List CollectionLogEntry))
    (now : String) (table : BlobJson (List GroupStatus)) (s : String)
    (g : Int) (T : List GroupStatus) (hg : pyInt s = some g)
    (hT : blobList table = some T) (hclog : clog ≠ BlobJson.malformed) :
    Repost.statusStep clog now table s =
      some (.parsed (updateStatusTable g (octOf clog g) now T)) := by
  simp only [Repost.statusStep, record_group_tracking_status, hg,
    get_original_creation_time_eq clog g hclog, hT, Option.bind_eq_bind,
    Option.some_bind]
  rfl

theorem foldlM_statusStep_parsed (clog : BlobJson (List CollectionLogEntry))
    (now : String) (ss : List String) (gl : List Int) (T : List GroupStatus)
    (hgl : ss.mapM pyInt = some gl) (hclog : clog ≠ BlobJson.malformed) :
    ss.foldlM (Repost.statusStep clog now) (BlobJson.parsed T) =
      some (.parsed (statusFold clog now gl T)) := by
  induction ss generalizing gl T with
  | nil =>
    simp only [List.mapM_nil, Option.pure_def, Option.some.injEq] at hgl
    subst hgl
    rfl
  | cons s rest ih =>
    rw [List.mapM_cons] at hgl
    simp only [Option.pure_def, Option.bind_eq_bind, Option.bind_eq_some,
      Option.some.injEq] at hgl
    obtain ⟨g, hg, gl', hgl', rfl⟩ := hgl
    rw [List.foldlM_cons,
      statusStep_eq clog now (BlobJson.parsed T) s g T hg rfl hclog,
      Option.bind_eq_bind, Option.some_bind, ih gl' _ hgl']
    rfl

theorem log_eq_of_readable (fname : Option String) (succ : Bool)
    (now content hd : String) (t : List String)
    (clog : BlobJson (List CollectionLogEntry))
    (tl : BlobJson (List TrackingLogEntry))
    (gs : BlobJson (List GroupStatus))
    (L : List TrackingLogEntry) (T : List GroupStatus) (gl : List Int)
    (hsp : pySplitlines content = hd :: t)
    (hgl : (pySplitlines content).mapM pyInt = some gl)
    (hclog : clog ≠ BlobJson.malformed)
    (hL : blobList tl = some L) (hT : blobList gs = some T) :
    Repost.log fname succ now (some content) clog tl gs =
      some (.parsed (L ++ [TrackingLogEntry.mk fname now (pySplitlines content) succ]),
        .parsed (statusFold clog now gl T)) := by
  rw [hsp] at hgl
  rw [List.mapM_cons] at hgl
  simp only [Option.pure_def, Option.bind_eq_bind, Option.bind_eq_some,
    Option.some.injEq] at hgl
  obtain ⟨g, hg, gl', hgl', rfl⟩ := hgl
  simp only [Repost.log]
  have hrt : record_tracking fname now (pySplitlines content) tl succ =
      some (L ++ [TrackingLogEntry.mk fname now (pySplitlines content) succ]) := by
    unfold record_tracking
    rw [hL, Option.map_some']
  rw [hrt]
  simp only [Option.bind_eq_bind, Option.some_bind]
  rw [hsp, List.foldlM_cons,
    statusStep_eq clog now gs hd g T hg hT hclog,
    Option.bind_eq_bind, Option.some_bind,
    foldlM_statusStep_parsed clog now t gl' _ hgl' hclog]
  simp only [Option.some_bind]
  rfl

/-- Counterexample for C5: a tracking-publish run whose rename fails
(no local `.jsonl` file) appends to the ErrorLog AND also appends a
`success = false` TrackingLogEntry and updates the status table —
`__main__` calls `log` unconditionally, so the two outcomes are not
mutually exclusive. -/
theorem trackingPublish_failure_updates_all :
    Repost.main "t" (some "1") [] BlobJson.absent BlobJson.absent
        BlobJson.absent BlobJson.absent =
      some (.parsed [ErrorEntry.mk "t"
          "No output file found for group 1 to group 1 at t"],
        .parsed [TrackingLogEntry.mk none "t" ["1"] false],
        .parsed [GroupStatus.mk 1 "Unknown" 1 "t"]) := by
  decide

/-- C5 as amended: with a readable nonempty group-range file of integer
lines, parseable logs and a non-malformed collection log, a successful
run appends a `success = true` TrackingLogEntry and updates the status
table for every covered group leaving the ErrorLog unchanged, while a
failed run (no candidate file) appends one ErrorEntry AND ALSO appends a
`success = false` TrackingLogEntry and updates the status table for
every covered group — the ErrorLog write does not exclude the
RunLogger/TrackingStatusTable writes. -/
theorem trackingPublish_run_outcomes (now content hd : String)
    (t : List String) (localFiles : List String)
    (clog : BlobJson (List CollectionLogEntry))
    (tl : BlobJson (List TrackingLogEntry))
    (gs : BlobJson (List GroupStatus))
    (el : BlobJson (List ErrorEntry))
    (L : List TrackingLogEntry) (T : List GroupStatus)
    (E : List ErrorEntry) (gl : List Int)
    (hsp : pySplitlines content = hd :: t)
    (hgl : (pySplitlines content).mapM pyInt = some gl)
    (hclog : clog ≠ BlobJson.malformed)
    (hL : blobList tl = some L) (hT : blobList gs = some T)
    (hE : blobList el = some E) :
    (localFiles.any (fun f => pyEndswith f ".jsonl") = true →
      Repost.main now (some content) localFiles clog tl gs el =
        some (el,
          .parsed (L ++ [TrackingLogEntry.mk
            (some (repostFileName now (pyStrip hd)
              (pyStrip ((hd :: t).getLast (List.cons_ne_nil hd t)))))
            now (pySplitlines content) true]),
          .parsed (statusFold clog now gl T))) ∧
    (localFiles.any (fun f => pyEndswith f ".jsonl") = false →
      Repost.main now (some content) localFiles clog tl gs el =
        some (.parsed (E ++ [ErrorEntry.mk now
            ("No output file found for group " ++ pyStrip hd ++ " to group " ++
              pyStrip ((hd :: t).getLast (List.cons_ne_nil hd t)) ++
              " at " ++ now)]),
          .parsed (L ++ [TrackingLogEntry.mk none now (pySplitlines content) false]),
          .parsed (statusFold clog now gl T))) := by
  constructor
  · intro hfound
    have hren : Repost.rename_output_file now (some content) localFiles el =
        some ((some (repostFileName now (pyStrip hd)
          (pyStrip ((hd :: t).getLast (List.cons_ne_nil hd t)))), true), el) := by
      simp only [Repost.rename_output_file, hsp, hfound, if_true]
    show (do
      let x ← Repost.rename_output_file now (some content) localFiles el
      let y ← Repost.log x.1.1 x.1.2 now (some content) clog tl gs
      pure (x.2, y.1, y.2)) = _
    rw [hren]
    simp only [Option.bind_eq_bind, Option.some_bind]
    rw [log_eq_of_readable _ _ now content hd t clog tl gs L T gl hsp hgl
      hclog hL hT]
    rfl
  · intro hfound
    have hren : Repost.rename_output_file now (some content) localFiles el =
        some ((none, false), .parsed (E ++ [ErrorEntry.mk now
          ("No output file found for group " ++ pyStrip hd ++ " to group " ++
            pyStrip ((hd :: t).getLast (List.cons_ne_nil hd t)) ++
            " at " ++ now)])) := by
      simp only [Repost.rename_output_file, hsp, hfound, log_error, hE,
        Option.map_some', Bool.false_eq_true, if_false]
    show (do
      let x ← Repost.rename_output_file now (some content) localFiles el
      let y ← Repost.log x.1.1 x.1.2 now (some content) clog tl gs
      pure (x.2, y.1, y.2)) = _
    rw [hren]
    simp only [Option.bind_eq_bind, Option.some_bind]
    rw [log_eq_of_readable _ _ now content hd t clog tl gs L T gl hsp hgl
      hclog hL hT]
    rfl

/-- Witness for C5 (amended): success run with a local `a.jsonl` and
failure run with no local file, range "2", empty prior logs. -/
theorem trackingPublish_run_outcomes_witness :
    pySplitlines "2" = "2" :: [] ∧
    (pySplitlines "2").mapM pyInt = some [2] ∧
    (BlobJson.absent : BlobJson (List CollectionLogEntry)) ≠ BlobJson.malformed ∧
    (["a.jsonl"].any (fun f => pyEndswith f ".jsonl") = true) ∧
    Repost.main "t" (some "2") ["a.jsonl"] BlobJson.absent BlobJson.absent
        BlobJson.absent BlobJson.absent =
      some (BlobJson.absent,
        .parsed ([] ++ [TrackingLogEntry.mk
          (some (repostFileName "t" (pyStrip "2")
            (pyStrip (("2" :: []).getLast (List.cons_ne_nil "2" [])))))
          "t" (pySplitlines "2") true]),
        .parsed (statusFold BlobJson.absent "t" [2] [])) := by
  refine ⟨by decide, by decide, by intro h; exact BlobJson.noConfusion h,
    by decide, ?_⟩
  exact (trackingPublish_run_outcomes "t" "2" "2" [] ["a.jsonl"]
    BlobJson.absent BlobJson.absent BlobJson.absent BlobJson.absent
    [] [] [] [2] (by decide) (by decide)
    (by intro h; exact BlobJson.noConfusion h) rfl rfl rfl).1 (by decide)

/-!
History of tracking-publish runs for the cross-run invariant.  Each run
is a `Repost.log` invocation: the group-range content, the file name and
success flag handed over from the rename, the clock, and the collection
log visible to `get_original_creation_time` at that moment.
-/

/-- Input of one tracking-publish `log` call. -/
structure TrackRun where
  groupRange : Option String
  fname : Option String
  succ : Bool
  now : String
  collectionLog : BlobJson (List CollectionLogEntry)

/-- Fold a sequence of `Repost.log` runs over the tracking log and the
status table. -/
def applyRuns (runs : List TrackRun)
    (tl : BlobJson (List TrackingLogEntry))
    (gs : BlobJson (List GroupStatus)) :
    Option (BlobJson (List TrackingLogEntry) × BlobJson (List GroupStatus)) :=
  runs.foldlM (fun st r =>
    Repost.log r.fname r.succ r.now r.groupRange r.collectionLog st.1 st.2)
    (tl, gs)

/-- `tracked_times` recorded for `g` (0 when `g` has no entry). -/
def timesOf (g : Int) (t : List GroupStatus) : Int :=
  ((t.find? (fun e => decide (e.group_number = g))).map
    (fun e => e.tracked_times)).getD 0

/-- Group `g` is among the numbers listed in `groups_in_it`. -/
def entryContains (g : Int) (e : TrackingLogEntry) : Bool :=
  decide (g ∈ e.groups_in_it.filterMap pyInt)

/-- Number of tracking-log entries whose `groups_in_it` contains `g`. -/
def logCount (g : Int) (l : List TrackingLogEntry) : Nat :=
  (l.filter (entryContains g)).length

/-- Group numbers a run covers, as `log` parses them. -/
def parsedGroupsOf (r : TrackRun) : Option (List Int) :=
  match r.groupRange with
  | none => some []
  | some c => (pySplitlines c).mapM pyInt

theorem timesOf_nil (g : Int) : timesOf g [] = 0 := rfl

theorem timesOf_cons (g : Int) (x : GroupStatus) (l : List GroupStatus) :
    timesOf g (x :: l) =
      if x.group_number = g then x.tracked_times else timesOf g l := by
  unfold timesOf
  by_cases h : x.group_number = g
  · rw [List.find?_cons_of_pos _ (by simpa using h), if_pos h]
    rfl
  · rw [List.find?_cons_of_neg _ (by simpa using h), if_neg h]

theorem timesOf_updateStatusTable (g g' : Int) (oct now : String)
    (T : List GroupStatus) :
    timesOf g (updateStatusTable g' oct now T) =
      timesOf g T + (if g = g' then 1 else 0) := by
  induction T with
  | nil =>
    show timesOf g [GroupStatus.mk g' oct 1 now] = timesOf g [] + _
    rw [timesOf_cons, timesOf_nil]
    by_cases h : g = g'
    · rw [if_pos h.symm, if_pos h]
      norm_num
    · rw [if_neg (fun hh => h hh.symm), if_neg h]
      norm_num
  | cons e rest ih =>
    show timesOf g
      (if e.group_number = g' then
        { e with
          tracked_times := e.tracked_times + 1
          last_tracked := now } :: rest
      else e :: updateStatusTable g' oct now rest) = _
    by_cases he : e.group_number = g'
    · rw [if_pos he, timesOf_cons, timesOf_cons]
      by_cases hg : g = g'
      · have hge : e.group_number = g := by rw [he, hg]
        rw [if_pos hge, if_pos hge, if_pos hg]
      · have hge : ¬ e.group_number = g := by
          rw [he]
          exact fun hh => hg hh.symm
        rw [if_neg hge, if_neg hge, if_neg hg]
        omega
    · rw [if_neg he, timesOf_cons, timesOf_cons]
      by_cases hge : e.group_number = g
      · have hg : ¬ g = g' := by
          rw [← hge]
          exact he
        rw [if_pos hge, if_pos hge, if_neg hg]
        omega
      · rw [if_neg hge, if_neg hge, ih]

theorem timesOf_statusFold (clog : BlobJson (List CollectionLogEntry))
    (now : String) (gl : List Int) :
    ∀ (T : List GroupStatus) (g : Int),
      timesOf g (statusFold clog now gl T) =
        timesOf g T + (gl.count g : Int) := by
  induction gl with
  | nil =>
    intro T g
    simp [statusFold]
  | cons x rest ih =>
    intro T g
    show timesOf g (statusFold clog now rest
      (updateStatusTable x (octOf clog x) now T)) = _
    rw [ih, timesOf_updateStatusTable]
    by_cases h : g = x
    · subst h
      simp [List.count_cons]
      omega
    · simp [List.count_cons, h, Ne.symm h]

theorem mapM_pyInt_filterMap :
    ∀ (ss : List String) (gl : List Int), ss.mapM pyInt = some gl →
      ss.filterMap pyInt = gl := by
  intro ss
  induction ss with
  | nil =>
    intro gl h
    simp only [List.mapM_nil, Option.pure_def, Option.some.injEq] at h
    rw [← h]
    rfl
  | cons s rest ih =>
    intro gl h
    rw [List.mapM_cons] at h
    simp only [Option.pure_def, Option.bind_eq_bind, Option.bind_eq_some,
      Option.some.injEq] at h
    obtain ⟨g, hg, gl', hgl', rfl⟩ := h
    rw [List.filterMap_cons_some hg, ih gl' hgl']

theorem logCount_append (g : Int) (L : List TrackingLogEntry)
    (e : TrackingLogEntry) :
    logCount g (L ++ [e]) =
      logCount g L + (if entryContains g e then 1 else 0) := by
  unfold logCount
  rw [List.filter_append, List.length_append]
  congr 1
  by_cases h : entryContains g e = true
  · simp [h]
  · simp [h]

theorem foldlM_statusStep_forward (clog : BlobJson (List CollectionLogEntry))
    (now : String) :
    ∀ (ss : List String) (tableB finalB : BlobJson (List GroupStatus))
      (T : List GroupStatus),
      ss.foldlM (Repost.statusStep clog now) tableB = some finalB →
      blobList tableB = some T →
      ∃ gl T', ss.mapM pyInt = some gl ∧ blobList finalB = some T' ∧
        ∀ g, timesOf g T' = timesOf g T + (gl.count g : Int) := by
  intro ss
  induction ss with
  | nil =>
    intro tableB finalB T h hT
    have hfin : tableB = finalB := by simpa using h
    subst hfin
    exact ⟨[], T, rfl, hT, fun g => by simp⟩
  | cons s rest ih =>
    intro tableB finalB T h hT
    rw [List.foldlM_cons, Option.bind_eq_bind] at h
    obtain ⟨tb1, hstep, hrest⟩ := Option.bind_eq_some.mp h
    unfold Repost.statusStep at hstep
    simp only [Option.bind_eq_bind, Option.bind_eq_some, Option.pure_def,
      Option.some.injEq] at hstep
    obtain ⟨g, hg, t1, hrec, rfl⟩ := hstep
    unfold record_group_tracking_status at hrec
    simp only [Option.bind_eq_bind, Option.bind_eq_some, Option.pure_def,
      Option.some.injEq] at hrec
    obtain ⟨oct0, hoct, T0, hT0, rfl⟩ := hrec
    rw [hT] at hT0
    obtain rfl : T = T0 := by injection hT0
    obtain ⟨gl', T', hgl', hT', hlaw⟩ :=
      ih (BlobJson.parsed (updateStatusTable g oct0 now T)) finalB
        (updateStatusTable g oct0 now T) hrest rfl
    refine ⟨g :: gl', T', ?_, hT', ?_⟩
    · rw [List.mapM_cons, hg, hgl']
      rfl
    · intro g0
      rw [hlaw g0, timesOf_updateStatusTable]
      by_cases h0 : g0 = g
      · subst h0
        simp [List.count_cons]
        omega
      · simp [List.count_cons, h0, Ne.symm h0]

theorem logRun_preserves (r : TrackRun)
    (tlB : BlobJson (List TrackingLogEntry))
    (gsB : BlobJson (List GroupStatus))
    (tl' : BlobJson (List TrackingLogEntry))
    (gs' : BlobJson (List GroupStatus))
    (L : List TrackingLogEntry) (T : List GroupStatus)
    (h : Repost.log r.fname r.succ r.now r.groupRange r.collectionLog tlB gsB =
      some (tl', gs'))
    (hL : blobList tlB = some L) (hT : blobList gsB = some T)
    (hinv : ∀ g, timesOf g T = (logCount g L : Int))
    (hnd : ((parsedGroupsOf r).getD []).Nodup) :
    ∃ L' T', blobList tl' = some L' ∧ blobList gs' = some T' ∧
      ∀ g, timesOf g T' = (logCount g L' : Int) := by
  cases hr : r.groupRange with
  | none =>
    rw [hr] at h
    unfold Repost.log at h
    simp only [Option.some.injEq, Prod.mk.injEq] at h
    obtain ⟨rfl, rfl⟩ := h
    exact ⟨L, T, hL, hT, hinv⟩
  | some content =>
    rw [hr] at h
    unfold Repost.log at h
    simp only [Option.bind_eq_bind, Option.bind_eq_some, Option.pure_def,
      Option.some.injEq, Prod.mk.injEq] at h
    obtain ⟨nl, hnl, ft, hft, hpair⟩ := h
    obtain ⟨rfl, rfl⟩ := hpair
    unfold record_tracking at hnl
    rw [hL, Option.map_some'] at hnl
    obtain rfl : L ++ [TrackingLogEntry.mk r.fname r.now
        (pySplitlines content) r.succ] = nl := by injection hnl
    obtain ⟨gl, T', hgl, hT', hlaw⟩ :=
      foldlM_statusStep_forward r.collectionLog r.now (pySplitlines content)
        gsB ft T hft hT
    have hndgl : gl.Nodup := by
      have : parsedGroupsOf r = some gl := by
        unfold parsedGroupsOf
        rw [hr]
        exact hgl
      rw [this] at hnd
      exact hnd
    refine ⟨L ++ [TrackingLogEntry.mk r.fname r.now (pySplitlines content)
      r.succ], T', rfl, hT', ?_⟩
    intro g
    rw [hlaw g, hinv g, logCount_append]
    have hmem : entryContains g (TrackingLogEntry.mk r.fname r.now
        (pySplitlines content) r.succ) = decide (g ∈ gl) := by
      unfold entryContains
      rw [show (TrackingLogEntry.mk r.fname r.now (pySplitlines content)
        r.succ).groups_in_it = pySplitlines content from rfl]
      rw [mapM_pyInt_filterMap (pySplitlines content) gl hgl]
    rw [hmem, List.count_eq_of_nodup hndgl]
    by_cases hg : g ∈ gl
    · simp [hg]
    · simp [hg]

theorem applyRuns_invariant :
    ∀ (runs : List TrackRun) (tlB : BlobJson (List TrackingLogEntry))
      (gsB : BlobJson (List GroupStatus))
      (tl' : BlobJson (List TrackingLogEntry))
      (gs' : BlobJson (List GroupStatus))
      (L : List TrackingLogEntry) (T : List GroupStatus),
      applyRuns runs tlB gsB = some (tl', gs') →
      blobList tlB = some L → blobList gsB = some T →
      (∀ g, timesOf g T = (logCount g L : Int)) →
      (∀ r ∈ runs, ((parsedGroupsOf r).getD []).Nodup) →
      ∃ L' T', blobList tl' = some L' ∧ blobList gs' = some T' ∧
        ∀ g, timesOf g T' = (logCount g L' : Int) := by
  intro runs
  induction runs with
  | nil =>
    intro tlB gsB tl' gs' L T h hL hT hinv _
    have hfin : (tlB, gsB) = (tl', gs') := by simpa [applyRuns] using h
    obtain ⟨rfl, rfl⟩ := Prod.mk.injEq .. |>.mp hfin
    exact ⟨L, T, hL, hT, hinv⟩
  | cons r rest ih =>
    intro tlB gsB tl' gs' L T h hL hT hinv hnd
    unfold applyRuns at h
    rw [List.foldlM_cons, Option.bind_eq_bind] at h
    obtain ⟨st1, hstep, hrest⟩ := Option.bind_eq_some.mp h
    obtain ⟨L1, T1, hL1, hT1, hinv1⟩ :=
      logRun_preserves r tlB gsB st1.1 st1.2 L T hstep hL hT hinv
        (hnd r (List.mem_cons_self r rest))
    exact ih st1.1 st1.2 tl' gs' L1 T1 hrest hL1 hT1 hinv1
      (fun x hx => hnd x (List.mem_cons_of_mem r hx))

/-- Counterexample for C8: one run whose group list contains group 1
twice gives `tracked_times = 2` while only one tracking-log entry
contains group 1. -/
theorem trackingStatus_duplicate_run_breaks_count :
    applyRuns [TrackRun.mk (some "1\n1") (some "f") true "t" BlobJson.absent]
        (BlobJson.parsed []) (BlobJson.parsed []) =
      some (.parsed [TrackingLogEntry.mk (some "f") "t" ["1", "1"] true],
        .parsed [GroupStatus.mk 1 "Unknown" 2 "t"]) ∧
    logCount 1 [TrackingLogEntry.mk (some "f") "t" ["1", "1"] true] = 1 ∧
    timesOf 1 [GroupStatus.mk 1 "Unknown" 2 "t"] = 2 := by
  refine ⟨by decide, by decide, by decide⟩

/-- C8 as amended: after any sequence of tracking-publish runs from
empty state in which no run's parsed group list repeats a group,
`tracked_times` for every group `g` equals the number of tracking-log
entries whose `groups_in_it` contains `g`. -/
theorem trackingStatus_count_invariant (runs : List TrackRun)
    (tl : BlobJson (List TrackingLogEntry))
    (gs : BlobJson (List GroupStatus))
    (hnd : ∀ r ∈ runs, ((parsedGroupsOf r).getD []).Nodup)
    (h : applyRuns runs (BlobJson.parsed []) (BlobJson.parsed []) =
      some (tl, gs)) :
    ∃ L T, blobList tl = some L ∧ blobList gs = some T ∧
      ∀ g, timesOf g T = (logCount g L : Int) :=
  applyRuns_invariant runs (BlobJson.parsed []) (BlobJson.parsed [])
    tl gs [] [] h rfl rfl (fun g => by simp [timesOf_nil, logCount]) hnd

/-- Witness for C8: two runs covering groups {1,2} and then {2}. -/
theorem trackingStatus_count_invariant_witness :
    (∀ r ∈ [TrackRun.mk (some "1\n2") (some "f1") true "t1" BlobJson.absent,
        TrackRun.mk (some "2") (some "f2") true "t2" BlobJson.absent],
      ((parsedGroupsOf r).getD []).Nodup) ∧
    applyRuns [TrackRun.mk (some "1\n2") (some "f1") true "t1" BlobJson.absent,
        TrackRun.mk (some "2") (some "f2") true "t2" BlobJson.absent]
        (BlobJson.parsed []) (BlobJson.parsed []) =
      some (.parsed [TrackingLogEntry.mk (some "f1") "t1" ["1", "2"] true,
          TrackingLogEntry.mk (some "f2") "t2" ["2"] true],
        .parsed [GroupStatus.mk 1 "Unknown" 1 "t1",
          GroupStatus.mk 2 "Unknown" 2 "t2"]) ∧
    (∃ L T, blobList (BlobJson.parsed
        [TrackingLogEntry.mk (some "f1") "t1" ["1", "2"] true,
          TrackingLogEntry.mk (some "f2") "t2" ["2"] true]) = some L ∧
      blobList (BlobJson.parsed [GroupStatus.mk 1 "Unknown" 1 "t1",
        GroupStatus.mk 2 "Unknown" 2 "t2"]) = some T ∧
      ∀ g, timesOf g T = (logCount g L : Int)) := by
  refine ⟨by decide, by decide, ?_⟩
  exact trackingStatus_count_invariant
    [TrackRun.mk (some "1\n2") (some "f1") true "t1" BlobJson.absent,
      TrackRun.mk (some "2") (some "f2") true "t2" BlobJson.absent]
    (.parsed [TrackingLogEntry.mk (some "f1") "t1" ["1", "2"] true,
      TrackingLogEntry.mk (some "f2") "t2" ["2"] true])
    (.parsed [GroupStatus.mk 1 "Unknown" 1 "t1",
      GroupStatus.mk 2 "Unknown" 2 "t2"])
    (by decide) (by decide)
